import Mathlib

/-!
Verification of the event-detection and timeline-synthesis layer of
`analyze_music.py` (music beat analyzer).

The audio feature provider (librosa) is out of scope: its outputs — the
duration, tempo, beat times, the raw onset-strength curve with its time
axis, and the three raw band-energy curves with the spectrogram time
axis — are modelled as inputs.  Real arithmetic is modelled with `ℚ`;
Python `round` is modelled as round-half-up on `ℚ`.  NumPy float division
by a zero maximum (which produces NaN values, not an exception) is
modelled by an `Option`-valued normalization where `none` stands for the
NaN-polluted curve.
-/

namespace MusicAnalyzer

/-- `round(q, d)`: round to `d` decimal places. -/
def roundTo (d : ℕ) (q : ℚ) : ℚ := ((round (q * (10 ^ d : ℚ)) : ℤ) : ℚ) / (10 ^ d : ℚ)

/-- `np.mean` of a list (0 on the empty list, which never occurs in use). -/
def meanList (l : List ℚ) : ℚ := l.sum / (l.length : ℚ)

/-- `np.max` of a list (0 on the empty list, which never occurs in use). -/
def maxList : List ℚ → ℚ
  | [] => 0
  | x :: xs => xs.foldl max x

/-- Python slice `l[a:b]`. -/
def slice (l : List ℚ) (a b : ℕ) : List ℚ := (l.drop a).take (b - a)

/-- Lines 72–74: `band / np.max(band) if np.max(band) > 0 else band` —
the guarded normalization applied to each band-energy curve. -/
def normalizeBand (l : List ℚ) : List ℚ :=
  if 0 < maxList l then l.map (fun x => x / maxList l) else l

/-- Line 52: `onset_env = onset_env / np.max(onset_env)` — the UNGUARDED
normalization of the onset envelope.  When the maximum is zero, NumPy
performs `0.0/0.0` elementwise and the curve becomes all NaN; this
undefined outcome is modelled as `none`. -/
def normalizeOnset (l : List ℚ) : Option (List ℚ) :=
  if maxList l = 0 then none else some (l.map (fun x => x / maxList l))

/-- `np.percentile(l, 85)` with NumPy's default linear interpolation:
virtual index `h = 0.85 * (n-1)` into the ascending sort. -/
def percentile85 (l : List ℚ) : ℚ :=
  let s := l.insertionSort (· ≤ ·)
  let n := l.length
  let h : ℚ := ((n : ℚ) - 1) * 85 / 100
  let lo : ℕ := (⌊h⌋).toNat
  let g : ℚ := h - (lo : ℚ)
  s.getD lo 0 + g * (s.getD (min (lo + 1) (n - 1)) 0 - s.getD lo 0)

/-- The inputs `analyze_music` receives from the feature provider
(librosa), after the spectrogram has been collapsed into the three raw
per-frame band means of lines 67–69. -/
structure Inputs where
  duration : ℚ
  tempo : ℚ
  beatTimes : List ℚ
  onsetEnv : List ℚ
  onsetTimes : List ℚ
  bassRaw : List ℚ
  midRaw : List ℚ
  highRaw : List ℚ
  specTimes : List ℚ
deriving Repr, DecidableEq

/-- Line 52's normalized onset curve, with `ℚ`'s `x / 0 = 0` totalizing
the NaN case (see `normalizeOnset` for the faithful option-valued form). -/
def onsetNorm (inp : Inputs) : List ℚ :=
  inp.onsetEnv.map (fun x => x / maxList inp.onsetEnv)

/-- Line 72: normalized bass-energy curve. -/
def bassEnergy (inp : Inputs) : List ℚ := normalizeBand inp.bassRaw

/-- Line 73: normalized mid-energy curve. -/
def midEnergy (inp : Inputs) : List ℚ := normalizeBand inp.midRaw

/-- Line 74: normalized high-energy curve. -/
def highEnergy (inp : Inputs) : List ℚ := normalizeBand inp.highRaw

/-- List lookup `l[i]`, defaulting to 0 out of range (in-range everywhere
it is used). -/
def at' (l : List ℚ) (i : ℕ) : ℚ := l.getD i 0

/-- Lines 85–94: the transient-drop loop.  `is` is the list of remaining
frame indices, `last` the `last_drop_time` state (initially `-2.0`).
A frame is flagged iff `i > 5`, `bass[i] > bass_threshold`,
`bass[i] > recent_avg * 1.5` and `t - last > 2.0`; on a flag
`round(t, 3)` is recorded and `last` becomes the unrounded `t`. -/
def dropsLoop (bass times : List ℚ) (thr : ℚ) : List ℕ → ℚ → List ℚ
  | [], _ => []
  | i :: is, last =>
    let t := at' times i
    if 5 < i ∧ thr < at' bass i ∧ meanList (slice bass (i - 5) i) * (3 / 2) < at' bass i ∧
        2 < t - last then
      roundTo 3 t :: dropsLoop bass times thr is t
    else
      dropsLoop bass times thr is last

/-- Same loop recording the unrounded flag times (proof helper relating
the recorded, rounded times to the internal debounce state). -/
def dropsLoopRaw (bass times : List ℚ) (thr : ℚ) : List ℕ → ℚ → List ℚ
  | [], _ => []
  | i :: is, last =>
    let t := at' times i
    if 5 < i ∧ thr < at' bass i ∧ meanList (slice bass (i - 5) i) * (3 / 2) < at' bass i ∧
        2 < t - last then
      t :: dropsLoopRaw bass times thr is t
    else
      dropsLoopRaw bass times thr is last

/-- Lines 80–94: `drops` — the loop runs over `range(1, len(bass_energy))`
with `bass_threshold = np.percentile(bass_energy, 85)` and
`last_drop_time = -2.0`. -/
def detectDrops (inp : Inputs) : List ℚ :=
  dropsLoop (bassEnergy inp) inp.specTimes (percentile85 (bassEnergy inp))
    (List.range' 1 ((bassEnergy inp).length - 1)) (-2)

/-- A recorded big drop (lines 118–122). -/
structure BigDrop where
  time : ℚ
  percent : ℚ
  intensity : ℚ
deriving Repr, DecidableEq

/-- Lines 107–124: the big-drop loop over frame indices `is` with
`last_big_drop_time` state (initially `-10.0`).  A frame is flagged iff
`bass_before < 0.15`, `bass_after > 0.3`, `bass_after > bass_before * 3`
and `t - last > 10.0`. -/
def bigDropsLoop (bass times : List ℚ) (duration : ℚ) : List ℕ → ℚ → List BigDrop
  | [], _ => []
  | i :: is, last =>
    let t := at' times i
    let before := meanList (slice bass (i - 40) i)
    let after := meanList (slice bass i (i + 20))
    if before < 15 / 100 ∧ 3 / 10 < after ∧ before * 3 < after ∧ 10 < t - last then
      { time := roundTo 3 t
        percent := roundTo 1 (t / duration * 100)
        intensity := if 0 < before then roundTo 2 (after / before) else 10 } ::
        bigDropsLoop bass times duration is t
    else
      bigDropsLoop bass times duration is last

/-- Same loop recording only the unrounded flag times (proof helper). -/
def bigDropsLoopRaw (bass times : List ℚ) : List ℕ → ℚ → List ℚ
  | [], _ => []
  | i :: is, last =>
    let t := at' times i
    let before := meanList (slice bass (i - 40) i)
    let after := meanList (slice bass i (i + 20))
    if before < 15 / 100 ∧ 3 / 10 < after ∧ before * 3 < after ∧ 10 < t - last then
      t :: bigDropsLoopRaw bass times is t
    else
      bigDropsLoopRaw bass times is last

/-- Lines 101–126: `big_drops` — the loop runs over
`range(window_before, len(bass_energy) - window_after)` with
`window_before = 40`, `window_after = 20`, `last_big_drop_time = -10.0`. -/
def detectBigDrops (inp : Inputs) : List BigDrop :=
  bigDropsLoop (bassEnergy inp) inp.specTimes inp.duration
    (List.range' 40 ((bassEnergy inp).length - 20 - 40)) (-10)

/-- The minimum of `|x - t|` over a nonempty list (0 on `[]`). -/
def minAbs (t : ℚ) : List ℚ → ℚ
  | [] => 0
  | [x] => |x - t|
  | x :: y :: xs => min |x - t| (minAbs t (y :: xs))

/-- `np.argmin(np.abs(times - t))`: the first index attaining the minimal
distance to `t` (NumPy's argmin returns the first occurrence on ties). -/
def argminAbs (t : ℚ) : List ℚ → ℕ
  | [] => 0
  | [_] => 0
  | x :: y :: xs => if |x - t| ≤ minAbs t (y :: xs) then 0 else argminAbs t (y :: xs) + 1

/-- One timeline record (lines 142–150). -/
structure Entry where
  t : ℚ
  bass : ℚ
  mid : ℚ
  high : ℚ
  onset : ℚ
  beat : Bool
  drop : Bool
deriving Repr, DecidableEq

/-- Lines 131–150: the timeline entry generated at tick `t`.  `drps` is
the list of recorded (rounded) transient-drop times. -/
def mkEntry (inp : Inputs) (drps : List ℚ) (t : ℚ) : Entry :=
  let onsetIdx := argminAbs t inp.onsetTimes
  let specIdx := argminAbs t inp.specTimes
  { t := roundTo 3 t
    bass := roundTo 3 (at' (bassEnergy inp) specIdx)
    mid := roundTo 3 (at' (midEnergy inp) specIdx)
    high := roundTo 3 (at' (highEnergy inp) specIdx)
    onset := roundTo 3 (at' (onsetNorm inp) onsetIdx)
    beat := inp.beatTimes.any (fun bt => |bt - t| < (5 / 100 : ℚ) / 2)
    drop := drps.any (fun d => |d - t| < 1 / 10) }

/-- Number of ticks of `np.arange(0, duration, 0.05)`:
`ceil(duration / 0.05)` when positive, else 0. -/
def numTicks (d : ℚ) : ℕ := if 0 < d then (⌈d * 20⌉).toNat else 0

/-- The tick values `0, 0.05, 0.10, …` of `np.arange(0, duration, 0.05)`. -/
def ticks (d : ℚ) : List ℚ := (List.range (numTicks d)).map (fun k : ℕ => (k : ℚ) / 20)

/-- Lines 128–151: the full timeline. -/
def timelineOf (inp : Inputs) : List Entry :=
  (ticks inp.duration).map (mkEntry inp (detectDrops inp))

/-- The output record of lines 154–162. -/
structure Output where
  duration : ℚ
  tempo : ℚ
  beatCount : ℕ
  beats : List ℚ
  drops : List ℚ
  bigDrops : List BigDrop
  timeline : List Entry
deriving Repr, DecidableEq

/-- Lines 24–164: `analyze_music`, from the feature-provider outputs to
the returned record. -/
def analyzeCore (inp : Inputs) : Output :=
  { duration := roundTo 2 inp.duration
    tempo := roundTo 1 inp.tempo
    beatCount := inp.beatTimes.length
    beats := inp.beatTimes.map (roundTo 3)
    drops := detectDrops inp
    bigDrops := detectBigDrops inp
    timeline := timelineOf inp }

/-- Observable outcome of one process run of `main` (lines 167–191). -/
structure RunResult where
  exitCode : ℕ
  savedFile : Option Output
  printedUsage : Bool
  printedError : Bool
deriving Repr, DecidableEq

/-- Lines 167–191: `main`.  `argv` is `sys.argv` (program name first);
`analyze` abstracts the `analyze_music` call, returning `.error msg` when
the analysis raises.  The output file is opened and written only in the
success branch, after `analyze` has returned; when the analysis raises,
control jumps to the `except` block before any file is opened, so no
artifact exists, an error message is printed and the process exits 1.
A missing argument prints usage text and exits 1 before any analysis. -/
def mainRun (argv : List String) (analyze : String → Except String Output) : RunResult :=
  if argv.length < 2 then
    { exitCode := 1, savedFile := none, printedUsage := true, printedError := false }
  else
    match analyze (argv.getD 1 "") with
    | .ok d => { exitCode := 0, savedFile := some d, printedUsage := false, printedError := false }
    | .error _ =>
      { exitCode := 1, savedFile := none, printedUsage := false, printedError := true }

/-- The gap test as the spec words it: the candidate time must exceed the
time of the previously flagged drop by more than `g`; with no previous
flagged drop the candidate is never blocked. -/
def gapOK (g t : ℚ) : Option ℚ → Prop
  | none => True
  | some lt => g < t - lt

instance (g t : ℚ) (o : Option ℚ) : Decidable (gapOK g t o) :=
  match o with
  | none => isTrue trivial
  | some lt => inferInstanceAs (Decidable (g < t - lt))

/-- Transient-drop selection following the spec's words: the output
contains `round(times[i], 3)` exactly for those `i > 5` with
`bass[i]` above the 85th percentile, `bass[i] > 1.5 ×` the mean of the 5
frames strictly preceding `i`, and `times[i]` more than 2.0 s past the
previously flagged drop (the first candidate never gap-blocked). -/
def specDropsLoop (bass times : List ℚ) (thr : ℚ) : List ℕ → Option ℚ → List ℚ
  | [], _ => []
  | i :: is, last =>
    if 5 < i ∧ thr < at' bass i ∧ meanList (slice bass (i - 5) i) * (3 / 2) < at' bass i ∧
        gapOK 2 (at' times i) last then
      roundTo 3 (at' times i) :: specDropsLoop bass times thr is (some (at' times i))
    else
      specDropsLoop bass times thr is last

/-- Spec-worded transient-drop detector over the whole curve. -/
def specDrops (inp : Inputs) : List ℚ :=
  specDropsLoop (bassEnergy inp) inp.specTimes (percentile85 (bassEnergy inp))
    (List.range' 1 ((bassEnergy inp).length - 1)) none

/-- Big-drop selection following the spec's words: flag at `i` iff the
40-frame before-mean is `< 0.15`, the 20-frame after-mean is `> 0.3` and
`> 3 ×` the before-mean, and `times[i]` is more than 10.0 s past the
previously flagged big drop; the record carries `round(t, 3)`,
`round(t/duration*100, 1)` and intensity `round(after/before, 2)` when the
before-mean is positive, the sentinel `10.0` when it is exactly 0. -/
def specBigDropsLoop (bass times : List ℚ) (duration : ℚ) : List ℕ → Option ℚ → List BigDrop
  | [], _ => []
  | i :: is, last =>
    if meanList (slice bass (i - 40) i) < 15 / 100 ∧
        3 / 10 < meanList (slice bass i (i + 20)) ∧
        meanList (slice bass (i - 40) i) * 3 < meanList (slice bass i (i + 20)) ∧
        gapOK 10 (at' times i) last then
      { time := roundTo 3 (at' times i)
        percent := roundTo 1 (at' times i / duration * 100)
        intensity :=
          if meanList (slice bass (i - 40) i) = 0 then 10
          else roundTo 2 (meanList (slice bass i (i + 20)) / meanList (slice bass (i - 40) i)) } ::
        specBigDropsLoop bass times duration is (some (at' times i))
    else
      specBigDropsLoop bass times duration is last

/-- Spec-worded big-drop detector over the whole curve. -/
def specBigDrops (inp : Inputs) : List BigDrop :=
  specBigDropsLoop (bassEnergy inp) inp.specTimes inp.duration
    (List.range' 40 ((bassEnergy inp).length - 20 - 40)) none

/-! ### Rounding lemmas -/

lemma abs_roundTo_sub (d : ℕ) (q : ℚ) : |roundTo d q - q| ≤ 1 / (2 * 10 ^ d) := by
  have hpow : (0 : ℚ) < 10 ^ d := by positivity
  have h := abs_sub_round (q * (10 ^ d : ℚ))
  have hrw : roundTo d q - q = -((q * 10 ^ d - (round (q * (10 ^ d : ℚ)) : ℚ)) / 10 ^ d) := by
    field_simp [roundTo]
    ring
  rw [hrw, abs_neg, abs_div, abs_of_pos hpow, div_le_div_iff₀ hpow (by positivity)]
  calc |q * 10 ^ d - (round (q * (10 ^ d : ℚ)) : ℚ)| * (2 * 10 ^ d)
      ≤ (1 / 2) * (2 * 10 ^ d) := by
        apply mul_le_mul_of_nonneg_right h (by positivity)
    _ = 1 * 10 ^ d := by ring

lemma roundTo3_gap {g a b : ℚ} (h : g < b - a) :
    g - 1 / 1000 < roundTo 3 b - roundTo 3 a := by
  have ha := abs_le.mp (abs_roundTo_sub 3 a)
  have hb := abs_le.mp (abs_roundTo_sub 3 b)
  norm_num at ha hb
  linarith [ha.1, ha.2, hb.1, hb.2]

/-- A value that is already a multiple of `10^-d` is fixed by `roundTo d`. -/
lemma roundTo_eq_self_of_mul_int {d : ℕ} {q : ℚ} (z : ℤ) (hz : q * 10 ^ d = (z : ℚ)) :
    roundTo d q = q := by
  have hpow : (0 : ℚ) ≠ 10 ^ d := by positivity
  rw [roundTo, hz, round_intCast]
  field_simp [hz.symm]

/-! ### Transient-drop loop lemmas -/

lemma dropsLoop_eq_map_raw (bass times : List ℚ) (thr : ℚ) :
    ∀ (is : List ℕ) (last : ℚ),
      dropsLoop bass times thr is last = (dropsLoopRaw bass times thr is last).map (roundTo 3)
  | [], _ => rfl
  | i :: is, last => by
    by_cases hc : 5 < i ∧ thr < at' bass i ∧
        meanList (slice bass (i - 5) i) * (3 / 2) < at' bass i ∧ 2 < at' times i - last
    · simp only [dropsLoop, dropsLoopRaw, if_pos hc, List.map_cons,
        dropsLoop_eq_map_raw bass times thr is]
    · simp only [dropsLoop, dropsLoopRaw, if_neg hc,
        dropsLoop_eq_map_raw bass times thr is]

lemma dropsLoopRaw_chain (bass times : List ℚ) (thr : ℚ) :
    ∀ (is : List ℕ) (last : ℚ),
      List.Chain' (fun a b => 2 < b - a) (last :: dropsLoopRaw bass times thr is last)
  | [], _ => List.chain'_singleton _
  | i :: is, last => by
    by_cases hc : 5 < i ∧ thr < at' bass i ∧
        meanList (slice bass (i - 5) i) * (3 / 2) < at' bass i ∧ 2 < at' times i - last
    · simp only [dropsLoopRaw, if_pos hc]
      exact List.Chain'.cons hc.2.2.2 (dropsLoopRaw_chain bass times thr is (at' times i))
    · simp only [dropsLoopRaw, if_neg hc]
      exact dropsLoopRaw_chain bass times thr is last

/-! ### Big-drop loop lemmas -/

lemma bigDropsLoop_times_eq_map_raw (bass times : List ℚ) (dur : ℚ) :
    ∀ (is : List ℕ) (last : ℚ),
      (bigDropsLoop bass times dur is last).map BigDrop.time =
        (bigDropsLoopRaw bass times is last).map (roundTo 3)
  | [], _ => rfl
  | i :: is, last => by
    by_cases hc : meanList (slice bass (i - 40) i) < 15 / 100 ∧
        3 / 10 < meanList (slice bass i (i + 20)) ∧
        meanList (slice bass (i - 40) i) * 3 < meanList (slice bass i (i + 20)) ∧
        10 < at' times i - last
    · simp only [bigDropsLoop, bigDropsLoopRaw, if_pos hc, List.map_cons,
        bigDropsLoop_times_eq_map_raw bass times dur is]
    · simp only [bigDropsLoop, bigDropsLoopRaw, if_neg hc,
        bigDropsLoop_times_eq_map_raw bass times dur is]

lemma bigDropsLoopRaw_chain (bass times : List ℚ) :
    ∀ (is : List ℕ) (last : ℚ),
      List.Chain' (fun a b => 10 < b - a) (last :: bigDropsLoopRaw bass times is last)
  | [], _ => List.chain'_singleton _
  | i :: is, last => by
    by_cases hc : meanList (slice bass (i - 40) i) < 15 / 100 ∧
        3 / 10 < meanList (slice bass i (i + 20)) ∧
        meanList (slice bass (i - 40) i) * 3 < meanList (slice bass i (i + 20)) ∧
        10 < at' times i - last
    · simp only [bigDropsLoopRaw, if_pos hc]
      exact List.Chain'.cons hc.2.2.2 (bigDropsLoopRaw_chain bass times is (at' times i))
    · simp only [bigDropsLoopRaw, if_neg hc]
      exact bigDropsLoopRaw_chain bass times is last

/-! ### Rounded-gap consequences -/

lemma chain'_map_roundTo3 {g : ℚ} {l : List ℚ}
    (h : List.Chain' (fun a b => g < b - a) l) :
    List.Chain' (fun a b => g - 1 / 1000 < b - a) (l.map (roundTo 3)) :=
  (List.chain'_map (roundTo 3)).mpr (h.imp (fun _ _ h' => roundTo3_gap h'))

lemma detectDrops_gap (inp : Inputs) :
    List.Chain' (fun a b => 1999 / 1000 < b - a) (detectDrops inp) := by
  have h := (dropsLoopRaw_chain (bassEnergy inp) inp.specTimes
    (percentile85 (bassEnergy inp)) (List.range' 1 ((bassEnergy inp).length - 1)) (-2)).tail
  have h2 := chain'_map_roundTo3 h
  rw [detectDrops, dropsLoop_eq_map_raw]
  convert h2 using 2
  norm_num

lemma detectBigDrops_gap (inp : Inputs) :
    List.Chain' (fun a b => 9999 / 1000 < b - a) ((detectBigDrops inp).map BigDrop.time) := by
  have h := (bigDropsLoopRaw_chain (bassEnergy inp) inp.specTimes
    (List.range' 40 ((bassEnergy inp).length - 20 - 40)) (-10)).tail
  have h2 := chain'_map_roundTo3 h
  rw [detectBigDrops, bigDropsLoop_times_eq_map_raw]
  convert h2 using 2
  norm_num

/-! ### Code loop = spec loop -/

lemma at'_eq_getElem {l : List ℚ} {i : ℕ} (h : i < l.length) : at' l i = l[i] := by
  simp [at', List.getD_eq_getElem?_getD, List.getElem?_eq_getElem h]

lemma at'_pos_of_sorted {times : List ℚ} (hmono : times.Sorted (· < ·))
    (hnn : ∀ x ∈ times, 0 ≤ x) {i : ℕ} (h1 : 1 ≤ i) (h2 : i < times.length) :
    0 < at' times i := by
  have h0 : 0 < times.length := lt_of_le_of_lt (Nat.zero_le i) h2
  have hg : times.get ⟨0, h0⟩ < times.get ⟨i, h2⟩ :=
    hmono.rel_get_of_lt (Fin.mk_lt_mk.mpr h1)
  have hnn0 : 0 ≤ times.get ⟨0, h0⟩ := hnn _ (times.get_mem 0 h0)
  rw [at'_eq_getElem h2]
  calc (0 : ℚ) ≤ times.get ⟨0, h0⟩ := hnn0
    _ < times.get ⟨i, h2⟩ := hg
    _ = times[i] := List.get_eq_getElem _ _

lemma dropsLoop_eq_specDropsLoop (bass times : List ℚ) (thr : ℚ) :
    ∀ (is : List ℕ), (∀ i ∈ is, 0 < at' times i) → ∀ (last : ℚ) (lastO : Option ℚ),
      ((lastO = none ∧ last = -2) ∨ lastO = some last) →
      dropsLoop bass times thr is last = specDropsLoop bass times thr is lastO
  | [], _, _, _, _ => rfl
  | i :: is, hpos, last, lastO, hR => by
    have ht : 0 < at' times i := hpos i (List.mem_cons_self i is)
    have hgap : (2 < at' times i - last) ↔ gapOK 2 (at' times i) lastO := by
      rcases hR with ⟨h1, h2⟩ | h1
      · subst h1; subst h2
        simp only [gapOK, iff_true]
        linarith
      · subst h1
        simp only [gapOK]
    have hpos' : ∀ j ∈ is, 0 < at' times j := fun j hj => hpos j (List.mem_cons_of_mem i hj)
    by_cases hc : 5 < i ∧ thr < at' bass i ∧
        meanList (slice bass (i - 5) i) * (3 / 2) < at' bass i ∧ 2 < at' times i - last
    · have hc' : 5 < i ∧ thr < at' bass i ∧
          meanList (slice bass (i - 5) i) * (3 / 2) < at' bass i ∧
          gapOK 2 (at' times i) lastO :=
        ⟨hc.1, hc.2.1, hc.2.2.1, hgap.mp hc.2.2.2⟩
      simp only [dropsLoop, specDropsLoop, if_pos hc, if_pos hc']
      exact congrArg _ (dropsLoop_eq_specDropsLoop bass times thr is hpos'
        (at' times i) (some (at' times i)) (Or.inr rfl))
    · have hc' : ¬(5 < i ∧ thr < at' bass i ∧
          meanList (slice bass (i - 5) i) * (3 / 2) < at' bass i ∧
          gapOK 2 (at' times i) lastO) :=
        fun h => hc ⟨h.1, h.2.1, h.2.2.1, hgap.mpr h.2.2.2⟩
      simp only [dropsLoop, specDropsLoop, if_neg hc, if_neg hc']
      exact dropsLoop_eq_specDropsLoop bass times thr is hpos' last lastO hR

lemma meanList_nonneg {l : List ℚ} (h : ∀ x ∈ l, 0 ≤ x) : 0 ≤ meanList l :=
  div_nonneg (List.sum_nonneg h) (Nat.cast_nonneg _)

lemma slice_subset (l : List ℚ) (a b : ℕ) : ∀ x ∈ slice l a b, x ∈ l :=
  fun _ hx => ((List.take_sublist _ _).trans (List.drop_sublist _ _)).subset hx

lemma bigDropsLoop_eq_specBigDropsLoop (bass times : List ℚ) (dur : ℚ)
    (hnn : ∀ x ∈ bass, 0 ≤ x) :
    ∀ (is : List ℕ), (∀ i ∈ is, 0 < at' times i) → ∀ (last : ℚ) (lastO : Option ℚ),
      ((lastO = none ∧ last = -10) ∨ lastO = some last) →
      bigDropsLoop bass times dur is last = specBigDropsLoop bass times dur is lastO
  | [], _, _, _, _ => rfl
  | i :: is, hpos, last, lastO, hR => by
    have ht : 0 < at' times i := hpos i (List.mem_cons_self i is)
    have hgap : (10 < at' times i - last) ↔ gapOK 10 (at' times i) lastO := by
      rcases hR with ⟨h1, h2⟩ | h1
      · subst h1; subst h2
        simp only [gapOK, iff_true]
        linarith
      · subst h1
        simp only [gapOK]
    have hb : 0 ≤ meanList (slice bass (i - 40) i) :=
      meanList_nonneg (fun x hx => hnn x (slice_subset bass _ _ x hx))
    have hint : (if 0 < meanList (slice bass (i - 40) i) then
          roundTo 2 (meanList (slice bass i (i + 20)) / meanList (slice bass (i - 40) i))
        else 10) =
        (if meanList (slice bass (i - 40) i) = 0 then 10
        else roundTo 2 (meanList (slice bass i (i + 20)) / meanList (slice bass (i - 40) i))) := by
      by_cases h0 : meanList (slice bass (i - 40) i) = 0
      · rw [if_pos h0, if_neg (by rw [h0]; exact lt_irrefl 0)]
      · rw [if_neg h0, if_pos (lt_of_le_of_ne hb (Ne.symm h0))]
    have hpos' : ∀ j ∈ is, 0 < at' times j := fun j hj => hpos j (List.mem_cons_of_mem i hj)
    by_cases hc : meanList (slice bass (i - 40) i) < 15 / 100 ∧
        3 / 10 < meanList (slice bass i (i + 20)) ∧
        meanList (slice bass (i - 40) i) * 3 < meanList (slice bass i (i + 20)) ∧
        10 < at' times i - last
    · have hc' : meanList (slice bass (i - 40) i) < 15 / 100 ∧
          3 / 10 < meanList (slice bass i (i + 20)) ∧
          meanList (slice bass (i - 40) i) * 3 < meanList (slice bass i (i + 20)) ∧
          gapOK 10 (at' times i) lastO :=
        ⟨hc.1, hc.2.1, hc.2.2.1, hgap.mp hc.2.2.2⟩
      simp only [bigDropsLoop, specBigDropsLoop, if_pos hc, if_pos hc']
      rw [hint]
      exact congrArg _ (bigDropsLoop_eq_specBigDropsLoop bass times dur hnn is hpos'
        (at' times i) (some (at' times i)) (Or.inr rfl))
    · have hc' : ¬(meanList (slice bass (i - 40) i) < 15 / 100 ∧
          3 / 10 < meanList (slice bass i (i + 20)) ∧
          meanList (slice bass (i - 40) i) * 3 < meanList (slice bass i (i + 20)) ∧
          gapOK 10 (at' times i) lastO) :=
        fun h => hc ⟨h.1, h.2.1, h.2.2.1, hgap.mpr h.2.2.2⟩
      simp only [bigDropsLoop, specBigDropsLoop, if_neg hc, if_neg hc']
      exact bigDropsLoop_eq_specBigDropsLoop bass times dur hnn is hpos' last lastO hR

/-! ### Argmin characterization -/

lemma getD_eq_getElem' {α : Type} {l : List α} {i : ℕ} (d : α) (h : i < l.length) :
    l.getD i d = l[i] := by
  simp [List.getD_eq_getElem?_getD, List.getElem?_eq_getElem h]

lemma at'_cons_zero (x : ℚ) (l : List ℚ) : at' (x :: l) 0 = x := rfl

lemma at'_cons_succ (x : ℚ) (l : List ℚ) (n : ℕ) : at' (x :: l) (n + 1) = at' l n := by
  simp [at']

lemma minAbs_le (t : ℚ) : ∀ (l : List ℚ) (m : ℕ), m < l.length → minAbs t l ≤ |at' l m - t|
  | [], _, h => absurd h (by simp)
  | [x], m, h => by
    have hm : m = 0 := Nat.lt_one_iff.mp (by simpa using h)
    subst hm
    simp [minAbs, at']
  | x :: y :: xs, m, h => by
    cases m with
    | zero =>
      rw [at'_cons_zero]
      simp only [minAbs]
      exact min_le_left _ _
    | succ m' =>
      have hrec := minAbs_le t (y :: xs) m' (by simpa using h)
      rw [at'_cons_succ]
      simp only [minAbs]
      exact le_trans (min_le_right _ _) hrec

lemma argminAbs_lt_length (t : ℚ) : ∀ (l : List ℚ), l ≠ [] → argminAbs t l < l.length
  | [], h => absurd rfl h
  | [_], _ => by simp [argminAbs]
  | x :: y :: xs, _ => by
    by_cases hc : |x - t| ≤ minAbs t (y :: xs)
    · simp [argminAbs, if_pos hc]
    · simp only [argminAbs, if_neg hc, List.length_cons]
      exact Nat.succ_lt_succ (argminAbs_lt_length t (y :: xs) (by simp))

lemma at'_argminAbs (t : ℚ) : ∀ (l : List ℚ), l ≠ [] → |at' l (argminAbs t l) - t| = minAbs t l
  | [], h => absurd rfl h
  | [x], _ => by simp [argminAbs, minAbs, at']
  | x :: y :: xs, _ => by
    by_cases hc : |x - t| ≤ minAbs t (y :: xs)
    · simp only [argminAbs, if_pos hc, minAbs]
      rw [at'_cons_zero]
      exact (min_eq_left hc).symm
    · simp only [argminAbs, if_neg hc, minAbs]
      rw [at'_cons_succ, at'_argminAbs t (y :: xs) (by simp)]
      exact (min_eq_right (le_of_lt (lt_of_not_le hc))).symm

lemma minAbs_lt_of_lt_argmin (t : ℚ) :
    ∀ (l : List ℚ) (m : ℕ), m < argminAbs t l → minAbs t l < |at' l m - t|
  | [], m, h => by simp [argminAbs] at h
  | [_], m, h => by simp [argminAbs] at h
  | x :: y :: xs, m, h => by
    by_cases hc : |x - t| ≤ minAbs t (y :: xs)
    · rw [argminAbs, if_pos hc] at h
      exact absurd h (Nat.not_lt_zero m)
    · rw [argminAbs, if_neg hc] at h
      have hlt : minAbs t (y :: xs) < |x - t| := lt_of_not_le hc
      cases m with
      | zero =>
        rw [at'_cons_zero]
        simp only [minAbs]
        rw [min_eq_right (le_of_lt hlt)]
        exact hlt
      | succ m' =>
        have hrec := minAbs_lt_of_lt_argmin t (y :: xs) m' (Nat.lt_of_succ_lt_succ h)
        rw [at'_cons_succ]
        simp only [minAbs]
        rw [min_eq_right (le_of_lt hlt)]
        exact hrec

/-! ### Maximum and normalization lemmas -/

lemma le_foldl_max : ∀ (xs : List ℚ) (a : ℚ), a ≤ xs.foldl max a
  | [], _ => le_refl _
  | x :: xs, a => le_trans (le_max_left a x) (le_foldl_max xs (max a x))

lemma foldl_max_mem_le : ∀ (xs : List ℚ) (a x : ℚ), x ∈ xs → x ≤ xs.foldl max a
  | [], _, _, hx => absurd hx (by simp)
  | y :: xs, a, x, hx => by
    rcases List.mem_cons.mp hx with h | h
    · subst h
      exact le_trans (le_max_right a x) (le_foldl_max xs (max a x))
    · exact foldl_max_mem_le xs (max a y) x h

lemma foldl_max_mem : ∀ (xs : List ℚ) (a : ℚ), xs.foldl max a = a ∨ xs.foldl max a ∈ xs
  | [], _ => Or.inl rfl
  | x :: xs, a => by
    rcases foldl_max_mem xs (max a x) with h | h
    · rcases max_choice a x with h2 | h2
      · exact Or.inl (by rw [List.foldl_cons, h, h2])
      · exact Or.inr (by rw [List.foldl_cons, h, h2]; exact List.mem_cons_self x xs)
    · exact Or.inr (List.mem_cons_of_mem x h)

lemma le_maxList {l : List ℚ} {x : ℚ} (hx : x ∈ l) : x ≤ maxList l := by
  cases l with
  | nil => exact absurd hx (by simp)
  | cons y ys =>
    rcases List.mem_cons.mp hx with h | h
    · subst h
      exact le_foldl_max ys x
    · exact foldl_max_mem_le ys y x h

lemma maxList_mem : ∀ {l : List ℚ}, l ≠ [] → maxList l ∈ l
  | [], h => absurd rfl h
  | y :: ys, _ => by
    rcases foldl_max_mem ys y with h | h
    · rw [maxList, h]
      exact List.mem_cons_self y ys
    · exact List.mem_cons_of_mem y (by rw [maxList]; exact h)

lemma maxList_eq_zero {l : List ℚ} (h : ∀ x ∈ l, x = 0) : maxList l = 0 := by
  cases l with
  | nil => rfl
  | cons y ys => exact h _ (maxList_mem (by simp))

lemma foldl_max_map_div {M : ℚ} (hM : 0 < M) :
    ∀ (xs : List ℚ) (a : ℚ),
      (xs.map (fun x => x / M)).foldl max (a / M) = xs.foldl max a / M
  | [], _ => rfl
  | x :: xs, a => by
    rw [List.map_cons, List.foldl_cons, List.foldl_cons, max_div_div_right (le_of_lt hM)]
    exact foldl_max_map_div hM xs (max a x)

lemma maxList_map_div {M : ℚ} (hM : 0 < M) (l : List ℚ) :
    maxList (l.map (fun x => x / M)) = maxList l / M := by
  cases l with
  | nil => simp [maxList]
  | cons y ys =>
    rw [List.map_cons, maxList, maxList]
    exact foldl_max_map_div hM ys y

lemma maxList_pos {l : List ℚ} (h : ∃ x ∈ l, 0 < x) : 0 < maxList l := by
  obtain ⟨x, hx, hpos⟩ := h
  exact lt_of_lt_of_le hpos (le_maxList hx)

lemma normalizeBand_length (l : List ℚ) : (normalizeBand l).length = l.length := by
  rw [normalizeBand]
  split <;> simp

lemma normalizeBand_nonneg {l : List ℚ} (h : ∀ x ∈ l, 0 ≤ x) :
    ∀ x ∈ normalizeBand l, 0 ≤ x := by
  rw [normalizeBand]
  split
  · next hpos =>
    intro x hx
    obtain ⟨y, hy, rfl⟩ := List.mem_map.mp hx
    exact div_nonneg (h y hy) (le_of_lt hpos)
  · next _ => exact h

/-! ### Timeline lemmas -/

/-- Default entry used with `List.getD` (out-of-range lookups never occur). -/
def defaultEntry : Entry :=
  { t := 0, bass := 0, mid := 0, high := 0, onset := 0, beat := false, drop := false }

lemma timelineOf_length (inp : Inputs) : (timelineOf inp).length = numTicks inp.duration := by
  simp [timelineOf, ticks]

lemma timelineOf_getD (inp : Inputs) {k : ℕ} (hk : k < (timelineOf inp).length) :
    (timelineOf inp).getD k defaultEntry = mkEntry inp (detectDrops inp) ((k : ℚ) / 20) := by
  rw [timelineOf, ticks] at hk ⊢
  rw [getD_eq_getElem' _ hk]
  simp

lemma timelineOf_mem {inp : Inputs} {e : Entry} (he : e ∈ timelineOf inp) :
    ∃ k < numTicks inp.duration, e = mkEntry inp (detectDrops inp) ((k : ℚ) / 20) := by
  rw [timelineOf, ticks] at he
  obtain ⟨t, ht, rfl⟩ := List.mem_map.mp he
  obtain ⟨k, hk, rfl⟩ := List.mem_map.mp ht
  exact ⟨k, List.mem_range.mp hk, rfl⟩

lemma roundTo3_tick (k : ℕ) : roundTo 3 ((k : ℚ) / 20) = (k : ℚ) / 20 :=
  roundTo_eq_self_of_mul_int ((50 : ℤ) * k) (by push_cast; ring)

lemma tick_lt_duration {d : ℚ} {k : ℕ} (hk : k < numTicks d) : (k : ℚ) / 20 < d := by
  rw [numTicks] at hk
  by_cases hd : 0 < d
  · rw [if_pos hd] at hk
    have h1 : (k : ℤ) < ⌈d * 20⌉ := Int.lt_toNat.mp hk
    have h2 : (k : ℚ) < d * 20 := by exact_mod_cast Int.lt_ceil.mp h1
    linarith
  · rw [if_neg hd] at hk
    exact absurd hk (Nat.not_lt_zero k)

lemma timelineOf_chain (inp : Inputs) :
    List.Chain' (fun a b => a.t < b.t) (timelineOf inp) := by
  rw [timelineOf, ticks, List.map_map]
  apply List.Pairwise.chain'
  rw [List.pairwise_map]
  apply (List.pairwise_lt_range (numTicks inp.duration)).imp
  intro a b hab
  show (mkEntry _ _ _).t < (mkEntry _ _ _).t
  show roundTo 3 ((a : ℚ) / 20) < roundTo 3 ((b : ℚ) / 20)
  rw [roundTo3_tick, roundTo3_tick]
  have : (a : ℚ) < b := by exact_mod_cast hab
  linarith

/-! ### Big-drop record lemmas -/

lemma three_le_roundTo2 {x : ℚ} (h : 3 < x) : 3 ≤ roundTo 2 x := by
  have hr := abs_le.mp (abs_sub_round (x * (10 ^ 2 : ℚ)))
  have h1 : x * 10 ^ 2 - (round (x * (10 ^ 2 : ℚ)) : ℚ) ≤ 1 / 2 := hr.2
  have h2 : (299 : ℚ) < (round (x * (10 ^ 2 : ℚ)) : ℚ) := by
    norm_num at h1 ⊢
    linarith
  have h3 : (300 : ℤ) ≤ round (x * (10 ^ 2 : ℚ)) := by
    have : (299 : ℤ) < round (x * (10 ^ 2 : ℚ)) := by exact_mod_cast h2
    omega
  rw [roundTo, le_div_iff₀ (by norm_num : (0 : ℚ) < 10 ^ 2)]
  calc (3 : ℚ) * 10 ^ 2 = ((300 : ℤ) : ℚ) := by norm_num
    _ ≤ (round (x * (10 ^ 2 : ℚ)) : ℚ) := by exact_mod_cast h3

lemma bigDropsLoop_intensity (bass times : List ℚ) (dur : ℚ) :
    ∀ (is : List ℕ) (last : ℚ) (b : BigDrop), b ∈ bigDropsLoop bass times dur is last →
      3 ≤ b.intensity
  | [], _, _, hb => absurd hb (by simp [bigDropsLoop])
  | i :: is, last, b, hb => by
    by_cases hc : meanList (slice bass (i - 40) i) < 15 / 100 ∧
        3 / 10 < meanList (slice bass i (i + 20)) ∧
        meanList (slice bass (i - 40) i) * 3 < meanList (slice bass i (i + 20)) ∧
        10 < at' times i - last
    · rw [bigDropsLoop, if_pos hc] at hb
      rcases List.mem_cons.mp hb with h | h
      · subst h
        show 3 ≤ (if 0 < meanList (slice bass (i - 40) i) then
            roundTo 2 (meanList (slice bass i (i + 20)) / meanList (slice bass (i - 40) i))
          else 10)
        by_cases hpos : 0 < meanList (slice bass (i - 40) i)
        · rw [if_pos hpos]
          apply three_le_roundTo2
          rw [lt_div_iff₀ hpos]
          linarith [hc.2.2.1]
        · rw [if_neg hpos]
          norm_num
      · exact bigDropsLoop_intensity bass times dur is (at' times i) b h
    · rw [bigDropsLoop, if_neg hc] at hb
      exact bigDropsLoop_intensity bass times dur is last b hb

lemma bigDropsLoop_fields (bass times : List ℚ) (dur : ℚ) :
    ∀ (is : List ℕ) (last : ℚ) (b : BigDrop), b ∈ bigDropsLoop bass times dur is last →
      (∃ q, b.time = roundTo 3 q) ∧ (∃ q, b.percent = roundTo 1 q) ∧
        ((∃ q, b.intensity = roundTo 2 q) ∨ b.intensity = 10)
  | [], _, _, hb => absurd hb (by simp [bigDropsLoop])
  | i :: is, last, b, hb => by
    by_cases hc : meanList (slice bass (i - 40) i) < 15 / 100 ∧
        3 / 10 < meanList (slice bass i (i + 20)) ∧
        meanList (slice bass (i - 40) i) * 3 < meanList (slice bass i (i + 20)) ∧
        10 < at' times i - last
    · rw [bigDropsLoop, if_pos hc] at hb
      rcases List.mem_cons.mp hb with h | h
      · subst h
        refine ⟨⟨_, rfl⟩, ⟨_, rfl⟩, ?_⟩
        show (∃ q, (if 0 < meanList (slice bass (i - 40) i) then
            roundTo 2 (meanList (slice bass i (i + 20)) / meanList (slice bass (i - 40) i))
          else 10) = roundTo 2 q) ∨ _
        by_cases hpos : 0 < meanList (slice bass (i - 40) i)
        · exact Or.inl ⟨_, by rw [if_pos hpos]⟩
        · exact Or.inr (by rw [if_neg hpos])
      · exact bigDropsLoop_fields bass times dur is (at' times i) b h
    · rw [bigDropsLoop, if_neg hc] at hb
      exact bigDropsLoop_fields bass times dur is last b hb

/-! ### Claim C1 -/

/-- C1 (amended): normalization of the band-energy curves is guarded — a
band curve with a positive value normalizes to maximum exactly 1, and an
all-zero band curve is left all zeros — and the onset envelope with a
positive value also normalizes to maximum exactly 1; but the onset
normalization (line 52) is NOT guarded: an all-zero onset envelope is
divided by its zero maximum, NaN-polluting the curve (`none`) instead of
leaving zeros. -/
theorem claim_C1_amended (l : List ℚ) (hnn : ∀ x ∈ l, 0 ≤ x) :
    ((∃ x ∈ l, x ≠ 0) →
      maxList (normalizeBand l) = 1 ∧
      ∃ m, normalizeOnset l = some m ∧ maxList m = 1) ∧
    ((∀ x ∈ l, x = 0) → normalizeBand l = l ∧ normalizeOnset l = none) := by
  constructor
  · intro hex
    obtain ⟨x, hx, hne⟩ := hex
    have hM : 0 < maxList l :=
      maxList_pos ⟨x, hx, lt_of_le_of_ne (hnn x hx) (Ne.symm hne)⟩
    have hmap : maxList (l.map (fun x => x / maxList l)) = 1 := by
      rw [maxList_map_div hM, div_self (ne_of_gt hM)]
    refine ⟨?_, _, ?_, hmap⟩
    · rw [normalizeBand, if_pos hM]
      exact hmap
    · rw [normalizeOnset, if_neg (ne_of_gt hM)]
  · intro hz
    have hM : maxList l = 0 := maxList_eq_zero hz
    constructor
    · rw [normalizeBand, if_neg (by rw [hM]; exact lt_irrefl 0)]
    · rw [normalizeOnset, if_pos hM]

set_option maxRecDepth 4000 in
unseal Rat.add Rat.mul Rat.inv Rat.sub in
/-- C1 counterexample: the all-zero onset envelope `[0,0,0]` is not left
as all zeros — the unguarded division by the zero maximum is performed
(NaN outcome, modelled `none`). -/
theorem claim_C1_counterexample :
    normalizeOnset [0, 0, 0] = none ∧ normalizeOnset [0, 0, 0] ≠ some [0, 0, 0] := by
  constructor
  · decide
  · decide

set_option maxRecDepth 4000 in
unseal Rat.add Rat.mul Rat.inv Rat.sub in
/-- C1 witness: the curve `[0, 1/2]` normalizes (band and onset alike) to
maximum exactly 1. -/
theorem claim_C1_witness :
    maxList (normalizeBand [0, 1/2]) = 1 ∧
    ∃ m, normalizeOnset [0, 1/2] = some m ∧ maxList m = 1 :=
  (claim_C1_amended [0, 1/2] (by decide)).1 ⟨1/2, by decide, by decide⟩

/-! ### Claim C2 -/

/-- C2: on any input whose spectrogram time axis is strictly increasing,
non-negative and long enough, the transient-drop output equals the
spec-worded greedy selection — it contains `round(spec_times[i], 3)`
exactly for the indices `i > 5` whose bass value exceeds the 85th
percentile and 1.5 × the mean of the 5 preceding frames, with the
unrounded time more than 2.0 s past the previously flagged drop (first
candidate never gap-blocked) — and the recorded drops are in increasing
time order. -/
theorem claim_C2 (inp : Inputs)
    (hmono : inp.specTimes.Sorted (· < ·))
    (hnn : ∀ x ∈ inp.specTimes, 0 ≤ x)
    (hlen : (bassEnergy inp).length ≤ inp.specTimes.length) :
    detectDrops inp = specDrops inp ∧ List.Chain' (· < ·) (detectDrops inp) := by
  constructor
  · rw [detectDrops, specDrops]
    have hpos : ∀ i ∈ List.range' 1 ((bassEnergy inp).length - 1), 0 < at' inp.specTimes i := by
      intro i hi
      have h := List.mem_range'_1.mp hi
      have h1 : 1 ≤ i := h.1
      have h2' : i < 1 + ((bassEnergy inp).length - 1) := h.2
      have h2 : i < inp.specTimes.length := by omega
      exact at'_pos_of_sorted hmono hnn h1 h2
    exact dropsLoop_eq_specDropsLoop _ _ _ _ hpos _ _ (Or.inl ⟨rfl, rfl⟩)
  · exact (detectDrops_gap inp).imp (fun _ _ h => by linarith)

/-- Concrete feature-provider output witnessing claim C2. -/
def wInp2 : Inputs :=
  { duration := 0, tempo := 120, beatTimes := [], onsetEnv := [], onsetTimes := [],
    bassRaw := [0, 0, 0, 0, 0, 0, 1, 0, 0, 0, 0, 0, 0, 1, 0, 0, 0, 0, 0, 0],
    midRaw := [], highRaw := [],
    specTimes := [0, 1/10, 2/10, 3/10, 4/10, 5/10, 1, 12/10, 13/10, 14/10,
      15/10, 16/10, 17/10, 35/10, 36/10, 37/10, 38/10, 39/10, 4, 41/10] }

set_option maxRecDepth 4000 in
unseal Rat.add Rat.mul Rat.inv Rat.sub in
/-- C2 witness at a concrete 20-frame input with spikes at frames 6 and 13. -/
theorem claim_C2_witness :
    detectDrops wInp2 = specDrops wInp2 ∧ List.Chain' (· < ·) (detectDrops wInp2) :=
  claim_C2 wInp2 (by decide) (by decide) (by decide)

/-! ### Claim C3 -/

/-- C3: on any input with a strictly increasing, non-negative, long-enough
spectrogram time axis and non-negative raw bass curve, the big-drop output
equals the spec-worded selection: a big drop is flagged at `i` in
`[40, len−20)` exactly when the 40-frame before-mean is `< 0.15`, the
20-frame after-mean is `> 0.3` and `> 3 ×` the before-mean, and the frame
time is more than 10.0 s past the last flagged big drop; the record holds
`round(t,3)`, `round(t/duration*100, 1)`, and intensity
`round(after/before, 2)` when the before-mean is positive, the sentinel
`10.0` when it is exactly 0. -/
theorem claim_C3 (inp : Inputs)
    (hmono : inp.specTimes.Sorted (· < ·))
    (hnn : ∀ x ∈ inp.specTimes, 0 ≤ x)
    (hbass : ∀ x ∈ inp.bassRaw, 0 ≤ x)
    (hlen : (bassEnergy inp).length ≤ inp.specTimes.length) :
    detectBigDrops inp = specBigDrops inp := by
  rw [detectBigDrops, specBigDrops]
  have hpos : ∀ i ∈ List.range' 40 ((bassEnergy inp).length - 20 - 40),
      0 < at' inp.specTimes i := by
    intro i hi
    have h := List.mem_range'_1.mp hi
    have h1a : 40 ≤ i := h.1
    have h2' : i < 40 + ((bassEnergy inp).length - 20 - 40) := h.2
    have h1 : 1 ≤ i := by omega
    have h2 : i < inp.specTimes.length := by omega
    exact at'_pos_of_sorted hmono hnn h1 h2
  exact bigDropsLoop_eq_specBigDropsLoop _ _ _ (normalizeBand_nonneg hbass) _ hpos _ _
    (Or.inl ⟨rfl, rfl⟩)

/-- Concrete feature-provider output witnessing claim C3: 40 quiet frames
(bass 0.05) followed by 21 loud frames (bass 0.5). -/
def wInp3 : Inputs :=
  { duration := 0, tempo := 120, beatTimes := [], onsetEnv := [], onsetTimes := [],
    bassRaw := List.replicate 40 (1/20 : ℚ) ++ List.replicate 21 (1/2 : ℚ),
    midRaw := [], highRaw := [],
    specTimes := (List.range 61).map (fun i : ℕ => (i : ℚ) / 10) }

set_option maxRecDepth 4000 in
unseal Rat.add Rat.mul Rat.inv Rat.sub in
/-- C3 witness at a concrete quiet→loud 61-frame input. -/
theorem claim_C3_witness : detectBigDrops wInp3 = specBigDrops wInp3 :=
  claim_C3 wInp3 (by decide) (by decide) (by decide) (by decide)

/-! ### Claim C4 -/

/-- C4 (amended): consecutive recorded transient-drop times differ by more
than `2.0 − 0.001` and consecutive recorded big-drop times by more than
`10.0 − 0.001` (the unrounded flag times differ by more than 2.0 resp.
10.0, but the recorded times are rounded to 3 decimals, which can shrink a
gap by up to 0.001, so strict `> 2.0`/`> 10.0` need not survive the
rounding). -/
theorem claim_C4_amended (inp : Inputs) :
    List.Chain' (fun a b => 2 - 1/1000 < b - a) ((analyzeCore inp).drops) ∧
    List.Chain' (fun a b => 10 - 1/1000 < b - a) (((analyzeCore inp).bigDrops).map BigDrop.time) := by
  constructor
  · exact (detectDrops_gap inp).imp (fun _ _ h => by linarith)
  · exact (detectBigDrops_gap inp).imp (fun _ _ h => by linarith)

/-- Concrete input refuting the rounded-gap claim of C4: drops flagged at
the unrounded times 1.0006 s and 3.0014 s (gap 2.0008 > 2.0) are recorded
as 1.001 and 3.001, whose difference is exactly 2.000. -/
def cInp4 : Inputs :=
  { duration := 0, tempo := 0, beatTimes := [], onsetEnv := [], onsetTimes := [],
    bassRaw := [0, 0, 0, 0, 0, 0, 1, 0, 0, 0, 0, 0, 0, 1, 0, 0, 0, 0, 0, 0],
    midRaw := [], highRaw := [],
    specTimes := [0, 1/10, 2/10, 3/10, 4/10, 5/10, 10006/10000, 12/10, 13/10, 14/10,
      15/10, 16/10, 17/10, 30014/10000, 31/10, 32/10, 33/10, 34/10, 35/10, 36/10] }

set_option maxRecDepth 4000 in
unseal Rat.add Rat.mul Rat.inv Rat.sub in
/-- C4 counterexample: on `cInp4` the recorded transient-drop list is
`[1.001, 3.001]`, whose consecutive difference is not strictly greater
than 2.0. -/
theorem claim_C4_counterexample :
    (analyzeCore cInp4).drops = [1001/1000, 3001/1000] ∧
    ¬ List.Chain' (fun a b : ℚ => 2 < b - a) ((analyzeCore cInp4).drops) := by
  have h : (analyzeCore cInp4).drops = [1001/1000, 3001/1000] := by decide
  refine ⟨h, ?_⟩
  rw [h]
  intro hch
  have h2 := (List.chain'_cons.mp hch).1
  norm_num at h2

/-! ### Claim C5 -/

/-- C5: for positive duration the timeline has exactly
`ceil(duration / 0.05)` entries, each entry's `t` is a non-negative
multiple of 0.05 strictly below the duration, entries are in strictly
increasing `t` order, and for duration ≤ 0 the timeline is empty. -/
theorem claim_C5 (inp : Inputs) :
    (0 < inp.duration →
      (timelineOf inp).length = (⌈inp.duration / (5/100 : ℚ)⌉).toNat ∧
      (∀ e ∈ timelineOf inp, ∃ k : ℕ, e.t = (k : ℚ) * (5/100) ∧ 0 ≤ e.t ∧ e.t < inp.duration) ∧
      List.Chain' (fun a b => a.t < b.t) (timelineOf inp)) ∧
    (inp.duration ≤ 0 → timelineOf inp = []) := by
  constructor
  · intro hd
    refine ⟨?_, ?_, timelineOf_chain inp⟩
    · rw [timelineOf_length, numTicks, if_pos hd]
      have heq : inp.duration / (5/100 : ℚ) = inp.duration * 20 := by ring
      rw [heq]
    · intro e he
      obtain ⟨k, hk, rfl⟩ := timelineOf_mem he
      refine ⟨k, ?_, ?_, ?_⟩
      · show roundTo 3 ((k : ℚ) / 20) = (k : ℚ) * (5/100)
        rw [roundTo3_tick]
        ring
      · show (0 : ℚ) ≤ roundTo 3 ((k : ℚ) / 20)
        rw [roundTo3_tick]
        positivity
      · show roundTo 3 ((k : ℚ) / 20) < inp.duration
        rw [roundTo3_tick]
        exact tick_lt_duration hk
  · intro hd
    rw [timelineOf, ticks, numTicks, if_neg (not_lt.mpr hd)]
    rfl

/-- Concrete input witnessing claim C5 (positive duration). -/
def wInp5 : Inputs :=
  { duration := 1/10, tempo := 120, beatTimes := [], onsetEnv := [1], onsetTimes := [0],
    bassRaw := [1], midRaw := [1], highRaw := [1], specTimes := [0] }

/-- Concrete input witnessing claim C5 (non-positive duration). -/
def wInp5n : Inputs :=
  { wInp5 with duration := -1 }

/-- C5 witness: a 0.1 s track yields the claimed timeline shape, and a
negative duration yields the empty timeline. -/
theorem claim_C5_witness :
    ((timelineOf wInp5).length = (⌈wInp5.duration / (5/100 : ℚ)⌉).toNat ∧
      (∀ e ∈ timelineOf wInp5, ∃ k : ℕ, e.t = (k : ℚ) * (5/100) ∧ 0 ≤ e.t ∧ e.t < wInp5.duration) ∧
      List.Chain' (fun a b => a.t < b.t) (timelineOf wInp5)) ∧
    timelineOf wInp5n = [] :=
  ⟨(claim_C5 wInp5).1 (show (0 : ℚ) < 1/10 by norm_num),
   (claim_C5 wInp5n).2 (show (-1 : ℚ) ≤ 0 by norm_num)⟩

/-! ### Claim C6 -/

/-- C6: each timeline entry samples the normalized onset envelope at the
first index minimizing the distance of `onset_times` to the tick, and the
three normalized band curves all at the single first index minimizing the
distance of `spec_times` to the tick, each value rounded to 3 decimals;
the chosen indices are in range, attain the minimal distance, and every
earlier index has strictly larger distance (first-occurrence tie-break). -/
theorem claim_C6 (inp : Inputs) (k : ℕ) (hk : k < (timelineOf inp).length)
    (hOn : inp.onsetTimes ≠ []) (hSp : inp.specTimes ≠ []) :
    ((timelineOf inp).getD k defaultEntry).onset =
      roundTo 3 (at' (onsetNorm inp) (argminAbs ((k : ℚ) / 20) inp.onsetTimes)) ∧
    ((timelineOf inp).getD k defaultEntry).bass =
      roundTo 3 (at' (bassEnergy inp) (argminAbs ((k : ℚ) / 20) inp.specTimes)) ∧
    ((timelineOf inp).getD k defaultEntry).mid =
      roundTo 3 (at' (midEnergy inp) (argminAbs ((k : ℚ) / 20) inp.specTimes)) ∧
    ((timelineOf inp).getD k defaultEntry).high =
      roundTo 3 (at' (highEnergy inp) (argminAbs ((k : ℚ) / 20) inp.specTimes)) ∧
    argminAbs ((k : ℚ) / 20) inp.onsetTimes < inp.onsetTimes.length ∧
    (∀ m < inp.onsetTimes.length,
      |at' inp.onsetTimes (argminAbs ((k : ℚ) / 20) inp.onsetTimes) - (k : ℚ) / 20| ≤
        |at' inp.onsetTimes m - (k : ℚ) / 20|) ∧
    (∀ m < argminAbs ((k : ℚ) / 20) inp.onsetTimes,
      |at' inp.onsetTimes (argminAbs ((k : ℚ) / 20) inp.onsetTimes) - (k : ℚ) / 20| <
        |at' inp.onsetTimes m - (k : ℚ) / 20|) ∧
    argminAbs ((k : ℚ) / 20) inp.specTimes < inp.specTimes.length ∧
    (∀ m < inp.specTimes.length,
      |at' inp.specTimes (argminAbs ((k : ℚ) / 20) inp.specTimes) - (k : ℚ) / 20| ≤
        |at' inp.specTimes m - (k : ℚ) / 20|) ∧
    (∀ m < argminAbs ((k : ℚ) / 20) inp.specTimes,
      |at' inp.specTimes (argminAbs ((k : ℚ) / 20) inp.specTimes) - (k : ℚ) / 20| <
        |at' inp.specTimes m - (k : ℚ) / 20|) := by
  rw [timelineOf_getD inp hk]
  refine ⟨rfl, rfl, rfl, rfl, argminAbs_lt_length _ _ hOn, ?_, ?_,
    argminAbs_lt_length _ _ hSp, ?_, ?_⟩
  · intro m hm
    rw [at'_argminAbs _ _ hOn]
    exact minAbs_le _ _ m hm
  · intro m hm
    rw [at'_argminAbs _ _ hOn]
    exact minAbs_lt_of_lt_argmin _ _ m hm
  · intro m hm
    rw [at'_argminAbs _ _ hSp]
    exact minAbs_le _ _ m hm
  · intro m hm
    rw [at'_argminAbs _ _ hSp]
    exact minAbs_lt_of_lt_argmin _ _ m hm

/-- Concrete input witnessing claim C6. -/
def wInp6 : Inputs :=
  { duration := 1/20, tempo := 120, beatTimes := [], onsetEnv := [1], onsetTimes := [0],
    bassRaw := [1], midRaw := [1], highRaw := [1], specTimes := [0] }

set_option maxRecDepth 4000 in
unseal Rat.add Rat.mul Rat.inv Rat.sub in
/-- C6 witness at a concrete one-frame input, tick 0. -/
theorem claim_C6_witness :
    ((timelineOf wInp6).getD 0 defaultEntry).onset =
      roundTo 3 (at' (onsetNorm wInp6) (argminAbs ((0 : ℕ) / 20 : ℚ) wInp6.onsetTimes)) ∧
    ((timelineOf wInp6).getD 0 defaultEntry).bass =
      roundTo 3 (at' (bassEnergy wInp6) (argminAbs ((0 : ℕ) / 20 : ℚ) wInp6.specTimes)) ∧
    ((timelineOf wInp6).getD 0 defaultEntry).mid =
      roundTo 3 (at' (midEnergy wInp6) (argminAbs ((0 : ℕ) / 20 : ℚ) wInp6.specTimes)) ∧
    ((timelineOf wInp6).getD 0 defaultEntry).high =
      roundTo 3 (at' (highEnergy wInp6) (argminAbs ((0 : ℕ) / 20 : ℚ) wInp6.specTimes)) ∧
    argminAbs ((0 : ℕ) / 20 : ℚ) wInp6.onsetTimes < wInp6.onsetTimes.length ∧
    (∀ m < wInp6.onsetTimes.length,
      |at' wInp6.onsetTimes (argminAbs ((0 : ℕ) / 20 : ℚ) wInp6.onsetTimes) - (0 : ℕ) / 20| ≤
        |at' wInp6.onsetTimes m - (0 : ℕ) / 20|) ∧
    (∀ m < argminAbs ((0 : ℕ) / 20 : ℚ) wInp6.onsetTimes,
      |at' wInp6.onsetTimes (argminAbs ((0 : ℕ) / 20 : ℚ) wInp6.onsetTimes) - (0 : ℕ) / 20| <
        |at' wInp6.onsetTimes m - (0 : ℕ) / 20|) ∧
    argminAbs ((0 : ℕ) / 20 : ℚ) wInp6.specTimes < wInp6.specTimes.length ∧
    (∀ m < wInp6.specTimes.length,
      |at' wInp6.specTimes (argminAbs ((0 : ℕ) / 20 : ℚ) wInp6.specTimes) - (0 : ℕ) / 20| ≤
        |at' wInp6.specTimes m - (0 : ℕ) / 20|) ∧
    (∀ m < argminAbs ((0 : ℕ) / 20 : ℚ) wInp6.specTimes,
      |at' wInp6.specTimes (argminAbs ((0 : ℕ) / 20 : ℚ) wInp6.specTimes) - (0 : ℕ) / 20| <
        |at' wInp6.specTimes m - (0 : ℕ) / 20|) :=
  claim_C6 wInp6 0 (by decide) (by decide) (by decide)

/-! ### Claim C7 -/

/-- Concrete input for C7's synthetic-beat check: one beat at exactly
1.000 s, duration 1.2 s. -/
def wInp7 : Inputs :=
  { duration := 12/10, tempo := 120, beatTimes := [1], onsetEnv := [1], onsetTimes := [0],
    bassRaw := [1], midRaw := [1], highRaw := [1], specTimes := [0] }

set_option maxRecDepth 8000 in
unseal Rat.add Rat.mul Rat.inv Rat.sub in
/-- C7: a timeline entry's `beat` flag is set exactly when some beat time
is within `0.05/2 = 0.025` of the tick, and its `drop` flag exactly when
some recorded transient-drop time is within 0.1 of the tick; concretely,
with one beat at exactly 1.000 s, the entry at t = 1.00 has `beat = true`
while the entries at t = 0.90 and t = 1.10 have `beat = false`. -/
theorem claim_C7 :
    (∀ (inp : Inputs) (k : ℕ), k < (timelineOf inp).length →
      ((((timelineOf inp).getD k defaultEntry).beat = true ↔
        ∃ b ∈ inp.beatTimes, |b - (k : ℚ) / 20| < (5/100 : ℚ) / 2) ∧
       (((timelineOf inp).getD k defaultEntry).drop = true ↔
        ∃ d ∈ detectDrops inp, |d - (k : ℚ) / 20| < 1/10))) ∧
    (((timelineOf wInp7).getD 20 defaultEntry).beat = true ∧
     ((timelineOf wInp7).getD 18 defaultEntry).beat = false ∧
     ((timelineOf wInp7).getD 22 defaultEntry).beat = false) := by
  constructor
  · intro inp k hk
    rw [timelineOf_getD inp hk]
    constructor
    · simp only [mkEntry, List.any_eq_true, decide_eq_true_eq]
    · simp only [mkEntry, List.any_eq_true, decide_eq_true_eq]
  · refine ⟨?_, ?_, ?_⟩ <;> decide

set_option maxRecDepth 8000 in
unseal Rat.add Rat.mul Rat.inv Rat.sub in
/-- C7 witness: the flag equivalences instantiated at `wInp7`, tick 20. -/
theorem claim_C7_witness :
    (((timelineOf wInp7).getD 20 defaultEntry).beat = true ↔
      ∃ b ∈ wInp7.beatTimes, |b - (20 : ℕ) / 20| < (5/100 : ℚ) / 2) ∧
    (((timelineOf wInp7).getD 20 defaultEntry).drop = true ↔
      ∃ d ∈ detectDrops wInp7, |d - (20 : ℕ) / 20| < 1/10) :=
  claim_C7.1 wInp7 20 (by decide)

/-! ### Claim C8 -/

/-- C8 (amended): the assembled output rounds `tempo` to 1 decimal, every
beat time, transient-drop time, big-drop time and every timeline field
`t`, `bass`, `mid`, `high`, `onset` to 3 decimals, every big-drop
`percent` to 1 decimal and `intensity` to 2 decimals (or the sentinel
10.0) — but `duration` is rounded to 2 decimal places, not 3. -/
theorem claim_C8_amended (inp : Inputs) :
    (analyzeCore inp).duration = roundTo 2 inp.duration ∧
    (analyzeCore inp).tempo = roundTo 1 inp.tempo ∧
    (analyzeCore inp).beats = inp.beatTimes.map (roundTo 3) ∧
    (∀ x ∈ (analyzeCore inp).drops, ∃ q, x = roundTo 3 q) ∧
    (∀ b ∈ (analyzeCore inp).bigDrops,
      (∃ q, b.time = roundTo 3 q) ∧ (∃ q, b.percent = roundTo 1 q) ∧
      ((∃ q, b.intensity = roundTo 2 q) ∨ b.intensity = 10)) ∧
    (∀ e ∈ (analyzeCore inp).timeline,
      (∃ q, e.t = roundTo 3 q) ∧ (∃ q, e.bass = roundTo 3 q) ∧ (∃ q, e.mid = roundTo 3 q) ∧
      (∃ q, e.high = roundTo 3 q) ∧ (∃ q, e.onset = roundTo 3 q)) := by
  refine ⟨rfl, rfl, rfl, ?_, ?_, ?_⟩
  · intro x hx
    rw [show (analyzeCore inp).drops = detectDrops inp from rfl, detectDrops,
      dropsLoop_eq_map_raw] at hx
    obtain ⟨q, _, rfl⟩ := List.mem_map.mp hx
    exact ⟨q, rfl⟩
  · intro b hb
    exact bigDropsLoop_fields _ _ _ _ _ b hb
  · intro e he
    obtain ⟨k, _, rfl⟩ := timelineOf_mem he
    exact ⟨⟨_, rfl⟩, ⟨_, rfl⟩, ⟨_, rfl⟩, ⟨_, rfl⟩, ⟨_, rfl⟩⟩

/-- Concrete input refuting C8's 3-decimal claim for the duration field. -/
def cInp8 : Inputs :=
  { duration := 12344/10000, tempo := 120, beatTimes := [], onsetEnv := [1], onsetTimes := [0],
    bassRaw := [1], midRaw := [1], highRaw := [1], specTimes := [0] }

set_option maxRecDepth 4000 in
unseal Rat.add Rat.mul Rat.inv Rat.sub in
/-- C8 counterexample: for a track of duration 1.2344 s the output records
`duration = 1.23` (2 decimals, line 155), not `round(1.2344, 3) = 1.234`. -/
theorem claim_C8_counterexample :
    (analyzeCore cInp8).duration = 123/100 ∧
    (analyzeCore cInp8).duration ≠ roundTo 3 cInp8.duration := by
  constructor
  · decide
  · decide

/-- Concrete input witnessing C8's membership statements (it produces a
non-empty drops list). -/
def wInp8 : Inputs :=
  { duration := 0, tempo := 120, beatTimes := [], onsetEnv := [], onsetTimes := [],
    bassRaw := [0, 0, 0, 0, 0, 0, 1, 0, 0, 0, 0, 0, 0, 1, 0, 0, 0, 0, 0, 0],
    midRaw := [], highRaw := [],
    specTimes := [0, 1/10, 2/10, 3/10, 4/10, 5/10, 1, 12/10, 13/10, 14/10,
      15/10, 16/10, 17/10, 35/10, 36/10, 37/10, 38/10, 39/10, 4, 41/10] }

set_option maxRecDepth 4000 in
unseal Rat.add Rat.mul Rat.inv Rat.sub in
/-- C8 witness: the recorded drop time 1 of `wInp8` is a 3-decimal
rounding of some unrounded flag time. -/
theorem claim_C8_witness : ∃ q, (1 : ℚ) = roundTo 3 q :=
  (claim_C8_amended wInp8).2.2.2.1 1 (by decide)

/-! ### Claim C9 -/

/-- Error message used to model an analysis failure. -/
def failureMsg : String := "analysis raised"

/-- C9: if the analysis raises, `main` saves no output artifact, prints an
error and exits non-zero; a missing file argument exits non-zero with
usage text (and also saves nothing). -/
theorem claim_C9 (argv : List String) (analyze : String → Except String Output) :
    (∀ msg, analyze (argv.getD 1 "") = Except.error msg → 2 ≤ argv.length →
      (mainRun argv analyze).savedFile = none ∧
      (mainRun argv analyze).exitCode ≠ 0 ∧
      (mainRun argv analyze).printedError = true) ∧
    (argv.length < 2 →
      (mainRun argv analyze).savedFile = none ∧
      (mainRun argv analyze).exitCode ≠ 0 ∧
      (mainRun argv analyze).printedUsage = true) := by
  constructor
  · intro msg herr hlen
    rw [mainRun, if_neg (not_lt.mpr hlen), herr]
    exact ⟨rfl, Nat.one_ne_zero, rfl⟩
  · intro hlen
    rw [mainRun, if_pos hlen]
    exact ⟨rfl, Nat.one_ne_zero, rfl⟩

/-- C9 witness: a concrete failing run saves nothing and exits 1, and a
concrete run with no file argument exits 1 with usage text. -/
theorem claim_C9_witness :
    ((mainRun ["analyze_music.py", "song.mp3"]
        (fun _ => Except.error failureMsg)).savedFile = none ∧
     (mainRun ["analyze_music.py", "song.mp3"]
        (fun _ => Except.error failureMsg)).exitCode ≠ 0 ∧
     (mainRun ["analyze_music.py", "song.mp3"]
        (fun _ => Except.error failureMsg)).printedError = true) ∧
    ((mainRun ["analyze_music.py"] (fun _ => Except.error failureMsg)).savedFile = none ∧
     (mainRun ["analyze_music.py"] (fun _ => Except.error failureMsg)).exitCode ≠ 0 ∧
     (mainRun ["analyze_music.py"] (fun _ => Except.error failureMsg)).printedUsage = true) :=
  ⟨(claim_C9 ["analyze_music.py", "song.mp3"] (fun _ => Except.error failureMsg)).1
      failureMsg rfl (by decide),
   (claim_C9 ["analyze_music.py"] (fun _ => Except.error failureMsg)).2 (by decide)⟩

/-! ### Claim C10 -/

/-- C10: every recorded big drop has intensity at least 3.0 — when the
before-mean is positive the flag condition `after > before * 3` forces the
ratio strictly above 3, so its 2-decimal rounding is at least 3.0, and
otherwise the sentinel 10.0 is recorded. -/
theorem claim_C10 (inp : Inputs) :
    ∀ b ∈ (analyzeCore inp).bigDrops, 3 ≤ b.intensity := by
  intro b hb
  exact bigDropsLoop_intensity _ _ _ _ _ b hb

/-- Concrete quiet→loud input witnessing claim C10. -/
def wInp10 : Inputs :=
  { duration := 0, tempo := 120, beatTimes := [], onsetEnv := [], onsetTimes := [],
    bassRaw := List.replicate 40 (1/20 : ℚ) ++ List.replicate 21 (1/2 : ℚ),
    midRaw := [], highRaw := [],
    specTimes := (List.range 61).map (fun i : ℕ => (i : ℚ) / 10) }

set_option maxRecDepth 4000 in
unseal Rat.add Rat.mul Rat.inv Rat.sub in
/-- C10 witness: the big drop recorded on `wInp10` has intensity 10 ≥ 3. -/
theorem claim_C10_witness : 3 ≤ (BigDrop.mk 4 0 10).intensity :=
  claim_C10 wInp10 (BigDrop.mk 4 0 10) (by decide)

end MusicAnalyzer
